import Mathlib

/-!
Verification of the Wallpaper-Splitter computational core (src/main.py).

The Python source is shallowly embedded: Python ints become `Int` (or `Nat`
for list indices / ids), Python float arithmetic is modelled exactly over
`Rat` (every counterexample below was chosen so that the binary64 float
computation of CPython agrees bit-for-bit with the rational value),
Python `round` (round-half-to-even) becomes `pyRound`, Python `int()`
applied to a float (truncation toward zero) becomes `pyInt`, and the file
system seen by `os.path.exists` becomes an explicit list of paths.
-/

/-- Python `round`: round half to even (banker's rounding), as used by
`ScreenConfig.calculate_resolution` in src/main.py. -/
def pyRound (q : ℚ) : ℤ :=
  let f : ℤ := ⌊q⌋
  if q - f < 1/2 then f
  else if 1/2 < q - f then f + 1
  else if Even f then f else f + 1

/-- Python `int()` on a float value: truncation toward zero, as used in
`WallpaperSplitterApp.draw_rectangles`. -/
def pyInt (q : ℚ) : ℤ :=
  if q < 0 then ⌈q⌉ else ⌊q⌋

/-- The scale mapping of src/main.py line 61 (and line 316):
`scale_factor = 0.5 + (scale_percent / 100) * 1.5`. -/
def scale_factor (scale_percent : ℤ) : ℚ :=
  1/2 + ((scale_percent : ℚ) / 100) * (3/2)

/-- The screen colour palette of `ScreenConfig.generate_color`. -/
def colors : List String :=
  ["#CC9709", "#C74405", "#CC0058", "#692ECC", "#2F6ECC", "#080E24"]

/-- `ScreenConfig.generate_color`: `colors[screen_id % len(colors)]`. -/
def generate_color (screen_id : ℕ) : String :=
  colors.getD (screen_id % colors.length) ""

/-- The `ScreenConfig` model class of src/main.py. -/
structure ScreenConfig where
  id : ℕ
  ratio_w : ℤ
  ratio_h : ℤ
  x : ℤ
  y : ℤ
  width : ℤ
  height : ℤ
  color : String
deriving DecidableEq, Repr

/-- `ScreenConfig.__init__` with its default arguments. -/
def ScreenConfig.init (screen_id : ℕ) : ScreenConfig :=
  { id := screen_id, ratio_w := 16, ratio_h := 9, x := 0, y := 0,
    width := 1920, height := 1080, color := generate_color screen_id }

/-- `ScreenConfig.get_box`: `(x, y, x + width, y + height)`. -/
def get_box (sc : ScreenConfig) : ℤ × ℤ × ℤ × ℤ :=
  (sc.x, sc.y, sc.x + sc.width, sc.y + sc.height)

/-- `ScreenConfig.calculate_resolution` (src/main.py lines 51-70), embedded
over exact rationals.  Note that the second dimension is computed from the
unrounded `scaled_max_side`, exactly as in the source:
`self.height = round(scaled_max_side * (self.ratio_h / self.ratio_w))`. -/
def calculate_resolution (sc : ScreenConfig) (ref_width ref_height scale_percent : ℤ) :
    ScreenConfig :=
  let sf : ℚ := scale_factor scale_percent
  let max_ref_side : ℤ := max ref_width ref_height
  let scaled_max_side : ℚ := (max_ref_side : ℚ) * sf
  if sc.ratio_h ≤ sc.ratio_w then
    { sc with
      width := pyRound scaled_max_side,
      height := pyRound (scaled_max_side * ((sc.ratio_h : ℚ) / (sc.ratio_w : ℚ))) }
  else
    { sc with
      height := pyRound scaled_max_side,
      width := pyRound (scaled_max_side * ((sc.ratio_w : ℚ) / (sc.ratio_h : ℚ))) }

/-- Spec-side definition, following the words of the specification (§4.1) and
of claim C1: the second dimension is computed from the already-rounded first
dimension (`height = round(width * ratio_h / ratio_w)`). -/
def compute_resolution_claimed (ratio_w ratio_h ref_width ref_height scale_percent : ℤ) :
    ℤ × ℤ :=
  let sf : ℚ := scale_factor scale_percent
  let scaled_max_side : ℚ := ((max ref_width ref_height : ℤ) : ℚ) * sf
  if ratio_h ≤ ratio_w then
    let w : ℤ := pyRound scaled_max_side
    (w, pyRound ((w : ℚ) * (ratio_h : ℚ) / (ratio_w : ℚ)))
  else
    let h : ℤ := pyRound scaled_max_side
    (pyRound ((h : ℚ) * (ratio_w : ℚ) / (ratio_h : ℚ)), h)

/-- Spec-side definition amended to match the source: both dimensions are
derived from the unrounded `scaled_max_side`. -/
def compute_resolution_amended (ratio_w ratio_h ref_width ref_height scale_percent : ℤ) :
    ℤ × ℤ :=
  let sf : ℚ := scale_factor scale_percent
  let scaled_max_side : ℚ := ((max ref_width ref_height : ℤ) : ℚ) * sf
  if ratio_h ≤ ratio_w then
    (pyRound scaled_max_side, pyRound (scaled_max_side * ((ratio_h : ℚ) / (ratio_w : ℚ))))
  else
    (pyRound (scaled_max_side * ((ratio_w : ℚ) / (ratio_h : ℚ))), pyRound scaled_max_side)

/-- The per-screen preview projection performed inside
`WallpaperSplitterApp.draw_rectangles` (src/main.py lines 637-640):
`x1 = int(screen.x * self.scale_factor) + self.x_offset`, etc.
Python `int()` truncates toward zero. -/
def rect_coords (s : ScreenConfig) (sf : ℚ) (x_offset y_offset : ℤ) : ℤ × ℤ × ℤ × ℤ :=
  (pyInt ((s.x : ℚ) * sf) + x_offset,
   pyInt ((s.y : ℚ) * sf) + y_offset,
   pyInt (((s.x + s.width : ℤ) : ℚ) * sf) + x_offset,
   pyInt (((s.y + s.height : ℤ) : ℚ) * sf) + y_offset)

/-- Spec-side projection, following the words of claim C9: floor. -/
def rect_coords_claimed (s : ScreenConfig) (sf : ℚ) (x_offset y_offset : ℤ) : ℤ × ℤ × ℤ × ℤ :=
  (⌊(s.x : ℚ) * sf⌋ + x_offset,
   ⌊(s.y : ℚ) * sf⌋ + y_offset,
   ⌊((s.x + s.width : ℤ) : ℚ) * sf⌋ + x_offset,
   ⌊((s.y + s.height : ℤ) : ℚ) * sf⌋ + y_offset)

/-- Spec-side projection amended to the source's semantics: truncation
toward zero instead of floor. -/
def rect_coords_amended (s : ScreenConfig) (sf : ℚ) (x_offset y_offset : ℤ) : ℤ × ℤ × ℤ × ℤ :=
  (pyInt ((s.x : ℚ) * sf) + x_offset,
   pyInt ((s.y : ℚ) * sf) + y_offset,
   pyInt (((s.x + s.width : ℤ) : ℚ) * sf) + x_offset,
   pyInt (((s.y + s.height : ℤ) : ℚ) * sf) + y_offset)

/-- The mutable state of `GlobalConfigWidget` (reference resolution and
scale percent). -/
structure GlobalConfig where
  ref_width : ℤ
  ref_height : ℤ
  scale_percent : ℤ
deriving DecidableEq, Repr

/-- `ScreenConfigWidget.update_config` (src/main.py lines 167-193).  The four
entry fields are parsed with `int()`; a `ValueError` (modelled as `none`)
leaves the configuration untouched, a non-positive ratio is rejected before
any assignment, and otherwise all four fields are assigned. -/
def update_config (sc : ScreenConfig)
    (ratio_w_in ratio_h_in x_in y_in : Option ℤ) : ScreenConfig :=
  match ratio_w_in, ratio_h_in, x_in, y_in with
  | some rw, some rh, some x, some y =>
    if rw ≤ 0 ∨ rh ≤ 0 then sc
    else { sc with ratio_w := rw, ratio_h := rh, x := x, y := y }
  | _, _, _, _ => sc

/-- `GlobalConfigWidget.apply_reference` (src/main.py lines 294-311). -/
def apply_reference (g : GlobalConfig) (width_in height_in : Option ℤ) : GlobalConfig :=
  match width_in, height_in with
  | some w, some h =>
    if w ≤ 0 ∨ h ≤ 0 then g
    else { g with ref_width := w, ref_height := h }
  | _, _ => g

/-- `WallpaperSplitterApp.recalculate_all_resolutions` restricted to its
effect on the screen list (src/main.py lines 551-567). -/
def recalculate_all (screens : List ScreenConfig) (ref_width ref_height scale_percent : ℤ) :
    List ScreenConfig :=
  screens.map (fun sc => calculate_resolution sc ref_width ref_height scale_percent)

/-- `WallpaperSplitterApp.delete_screen` (src/main.py lines 508-541) restricted
to its effect on the screen list: pop the entry at `i`, reassign every
remaining entry's `id` and `color` to its new position, then recalculate all
resolutions with the current global configuration. -/
def delete_screen (screens : List ScreenConfig) (i : ℕ)
    (ref_width ref_height scale_percent : ℤ) : List ScreenConfig :=
  let remaining := screens.eraseIdx i
  let renumbered :=
    remaining.enum.map (fun p => { p.2 with id := p.1, color := generate_color p.1 })
  recalculate_all renumbered ref_width ref_height scale_percent

/-- Decimal value of a digit character. -/
def digitVal (c : Char) : ℕ := c.toNat - 48

/-- Decimal value of a digit string, used to invert `Nat.toDigits`. -/
def decVal (l : List Char) : ℕ := l.foldl (fun a c => a * 10 + digitVal c) 0

/-- A character list containing neither a dot nor a path separator. -/
def clean_chars (l : List Char) : Prop := ∀ c ∈ l, c ≠ '.' ∧ c ≠ '/'

/-- Scanning the part of a path before its last dot (reversed): is there a
non-dot character before the directory separator?  This mirrors the stem
check of CPython's `posixpath.splitext`. -/
def hasStem : List Char → Bool
  | [] => false
  | c :: rest => if c = '/' then false else if c = '.' then hasStem rest else true

/-- Scan a reversed path for the extension dot, CPython `splitext` style:
returns the length of the extension (dot included) counted from the end,
or `none` when there is no extension. -/
def findDot : List Char → Option ℕ
  | [] => none
  | c :: rest =>
    if c = '/' then none
    else if c = '.' then (if hasStem rest then some 1 else none)
    else (findDot rest).map (· + 1)

/-- `os.path.splitext` (posix flavour), as used by `get_unique_filename`. -/
def splitext (p : String) : String × String :=
  match findDot p.data.reverse with
  | none => (p, "")
  | some k => (⟨p.data.take (p.data.length - k)⟩, ⟨p.data.drop (p.data.length - k)⟩)

/-- `os.path.join` (posix flavour) for the relative filenames this
application produces. -/
def path_join (dir f : String) : String :=
  if dir = "" then f
  else if dir.data.getLast? = some '/' then dir ++ f
  else dir ++ "/" ++ f

/-- A candidate filename of the disambiguation loop:
`f"{name}_{counter}{ext}"`. -/
def mkCand (name ext : String) (counter : ℕ) : String :=
  name ++ "_" ++ Nat.repr counter ++ ext

/-- The `while True` search of `get_unique_filename`, made structural with
explicit fuel; the caller passes fuel `len(existing) + 1`, which is proved
below (`find_unique_first`, `exists_free_lt`) to be always sufficient, so the
fuel-exhausted branch is unreachable. -/
def find_unique (existing : List String) (name ext : String) : ℕ → ℕ → String
  | 0, counter => mkCand name ext counter
  | fuel + 1, counter =>
    let cand := mkCand name ext counter
    if cand ∈ existing then find_unique existing name ext fuel (counter + 1) else cand

/-- `WallpaperSplitterApp.get_unique_filename` (src/main.py lines 664-676):
return `base_path` if no such file exists, otherwise insert the first free
`_2`, `_3`, ... suffix before the extension.  `os.path.exists` is modelled
by membership in the explicit path list `existing`. -/
def get_unique_filename (existing : List String) (base_path : String) : String :=
  if base_path ∈ existing then
    find_unique existing (splitext base_path).1 (splitext base_path).2
      (existing.length + 1) 2
  else base_path

/-- A decoded raster image (PIL `Image`): dimensions plus pixel contents. -/
structure Image where
  width : ℤ
  height : ℤ
  pix : ℤ → ℤ → ℕ

/-- PIL `Image.crop((left, top, right, bottom))`: exact pixel copy of the
axis-aligned rectangle, no resampling. -/
def pil_crop (im : Image) (box : ℤ × ℤ × ℤ × ℤ) : Image :=
  { width := box.2.2.1 - box.1,
    height := box.2.2.2 - box.2.1,
    pix := fun i j => im.pix (i + box.1) (j + box.2.1) }

/-- The application state touched by `extract_all`: the loaded image, the
screen list, and the file system (the set of existing paths). -/
structure AppState where
  image : Image
  screens : List ScreenConfig
  fs : List String

/-- The observable outcome of one `extract_all` run: the success counter,
the recorded per-screen error strings, and the saved files in order. -/
structure Report where
  extracted_count : ℕ
  errors : List String
  saved : List (String × Image)

/-- The per-screen error string of src/main.py line 707. -/
def errMsg (sc : ScreenConfig) : String :=
  "Screen " ++ Nat.repr (sc.id + 1) ++ " exceeds image boundaries"

/-- The filename stem `f"wallpaper_screen_{ratio_w}-{ratio_h}"`. -/
def screen_stem (sc : ScreenConfig) : String :=
  "wallpaper_screen_" ++ Int.repr sc.ratio_w ++ "-" ++ Int.repr sc.ratio_h

/-- The output filename `f"wallpaper_screen_{ratio_w}-{ratio_h}{ext}"` of
src/main.py line 715. -/
def screen_filename (sc : ScreenConfig) (ext : String) : String :=
  "wallpaper_screen_" ++ Int.repr sc.ratio_w ++ "-" ++ Int.repr sc.ratio_h ++ ext

/-- The in-bounds condition of claim C5:
`x>=0 and y>=0 and x+width<=image.width and y+height<=image.height`. -/
def in_bounds (im : Image) (sc : ScreenConfig) : Bool :=
  decide (0 ≤ sc.x ∧ 0 ≤ sc.y ∧ sc.x + sc.width ≤ im.width ∧ sc.y + sc.height ≤ im.height)

/-- One iteration of the `for screen in self.screens` loop of
`WallpaperSplitterApp.extract_all` (src/main.py lines 700-722): bounds check
with `continue` on violation, then crop, filename derivation, collision
avoidance and save (modelled as adding the path to the file system). -/
def extract_step (folder ext : String) (acc : AppState × Report)
    (screen : ScreenConfig) : AppState × Report :=
  let st := acc.1
  let rep := acc.2
  if screen.x < 0 ∨ screen.y < 0 ∨ st.image.width < screen.x + screen.width ∨
      st.image.height < screen.y + screen.height then
    (st, { rep with errors := rep.errors ++ [errMsg screen] })
  else
    let cropped := pil_crop st.image (get_box screen)
    let filepath := get_unique_filename st.fs (path_join folder (screen_filename screen ext))
    ({ st with fs := filepath :: st.fs },
     { rep with
       extracted_count := rep.extracted_count + 1,
       saved := rep.saved ++ [(filepath, cropped)] })

/-- `WallpaperSplitterApp.extract_all` (src/main.py lines 678-727), restricted
to its computational core: iterate over the screens in order, accumulating
the success count, the error list and the saved files. -/
def extract_all (st : AppState) (folder ext : String) : AppState × Report :=
  st.screens.foldl (extract_step folder ext) (st, ⟨0, [], []⟩)

/-- A sound image extension: either empty, or a dot followed by characters
containing no further dot and no separator — exactly the shape produced by
`os.path.splitext(image_path)[1]`. -/
def ext_ok (ext : String) : Prop :=
  ext = "" ∨ ∃ t, ext.data = '.' :: t ∧ clean_chars t

/-- The naming discipline claimed in C4 for one saved screen given the
file-system contents `fsNow` at save time: the base path itself when free,
otherwise the first free `_k` suffix (`k ≥ 2`) inserted before the
extension. -/
def named_ok (folder ext : String) (fsNow : List String) (sc : ScreenConfig)
    (p : String) : Prop :=
  (path_join folder (screen_filename sc ext) ∉ fsNow ∧
    p = path_join folder (screen_filename sc ext)) ∨
  (path_join folder (screen_filename sc ext) ∈ fsNow ∧ ∃ k, 2 ≤ k ∧
    p = path_join folder (screen_stem sc) ++ "_" ++ Nat.repr k ++ ext ∧
    p ∉ fsNow ∧
    ∀ j, 2 ≤ j → j < k →
      path_join folder (screen_stem sc) ++ "_" ++ Nat.repr j ++ ext ∈ fsNow)

/-- The C4 export contract over a whole run: screens are processed in order;
an out-of-bounds screen saves nothing; an in-bounds screen saves one file
whose path obeys `named_ok` for the file system as it stands at that moment,
which then grows by that path. -/
inductive ExportNaming (imW imH : ℤ) (folder ext : String) :
    List String → List ScreenConfig → List (String × Image) → Prop where
  | nil : ∀ fs, ExportNaming imW imH folder ext fs [] []
  | oob : ∀ fs sc ss saved,
      (sc.x < 0 ∨ sc.y < 0 ∨ imW < sc.x + sc.width ∨ imH < sc.y + sc.height) →
      ExportNaming imW imH folder ext fs ss saved →
      ExportNaming imW imH folder ext fs (sc :: ss) saved
  | save : ∀ fs sc ss saved p img,
      ¬ (sc.x < 0 ∨ sc.y < 0 ∨ imW < sc.x + sc.width ∨ imH < sc.y + sc.height) →
      named_ok folder ext fs sc p →
      ExportNaming imW imH folder ext (p :: fs) ss saved →
      ExportNaming imW imH folder ext fs (sc :: ss) ((p, img) :: saved)

lemma pyInt_eq_floor {q : ℚ} (h : 0 ≤ q) : pyInt q = ⌊q⌋ := by
  unfold pyInt
  rw [if_neg (not_lt.2 h)]

/-- C1 counterexample: with `ratio 10:9`, reference `23x1`, scale `0`,
`scaled_max_side = 11.5`; the code returns height `round(11.5 * 9/10) = 10`,
while the claimed algorithm (second dimension from the already-rounded
width 12) returns `round(12 * 9/10) = 11`. -/
theorem C1_counterexample :
    ((calculate_resolution ⟨0, 10, 9, 0, 0, 1920, 1080, "#CC9709"⟩ 23 1 0).width,
     (calculate_resolution ⟨0, 10, 9, 0, 0, 1920, 1080, "#CC9709"⟩ 23 1 0).height)
    ≠ compute_resolution_claimed 10 9 23 1 0 := by
  norm_num [calculate_resolution, compute_resolution_claimed, scale_factor, pyRound,
    Int.even_iff]

/-- C1 (amended): for all positive integer inputs, `calculate_resolution`
follows the specified algorithm except that the second dimension is computed
from the unrounded `scaled_max_side`, not from the rounded first dimension:
`height = round(scaled_max_side * (ratio_h / ratio_w))` (resp. width). -/
theorem C1_resolution_follows_amended_algorithm (sc : ScreenConfig)
    (ref_width ref_height scale_percent : ℤ)
    (hrw : 0 < sc.ratio_w) (hrh : 0 < sc.ratio_h)
    (hw : 0 < ref_width) (hh : 0 < ref_height) :
    ((calculate_resolution sc ref_width ref_height scale_percent).width,
     (calculate_resolution sc ref_width ref_height scale_percent).height)
    = compute_resolution_amended sc.ratio_w sc.ratio_h ref_width ref_height scale_percent := by
  by_cases h : sc.ratio_h ≤ sc.ratio_w <;>
    simp [calculate_resolution, compute_resolution_amended, h]

/-- Witness for C1 at the defaults: ratio 16:9, reference 2560x1440, scale 50. -/
theorem C1_witness :
    0 < (ScreenConfig.init 0).ratio_w ∧ 0 < (ScreenConfig.init 0).ratio_h ∧
    ((calculate_resolution (ScreenConfig.init 0) 2560 1440 50).width,
     (calculate_resolution (ScreenConfig.init 0) 2560 1440 50).height)
    = compute_resolution_amended (ScreenConfig.init 0).ratio_w
        (ScreenConfig.init 0).ratio_h 2560 1440 50 :=
  ⟨by decide, by decide,
   C1_resolution_follows_amended_algorithm (ScreenConfig.init 0) 2560 1440 50
     (by decide) (by decide) (by decide) (by decide)⟩

/-- C2: the scale mapping `0.5 + (scale_percent/100)*1.5` yields `0.5` at 0
and `2.0` at 100, but `1.25` at 50 — not the `1.0` stated by the code's own
docstring ("50% = x1.0"), the GUI label and the claim. -/
theorem C2_scale_factor_values :
    scale_factor 0 = 1/2 ∧ scale_factor 50 = 5/4 ∧ scale_factor 100 = 2 := by
  norm_num [scale_factor]

/-- C3 counterexample: with reference 2560x1440 and scale 50 the factor is
1.25, so ratio 16:9 yields (3200, 1800), not the claimed (2560, 1440). -/
theorem C3_counterexample :
    ((calculate_resolution (ScreenConfig.init 0) 2560 1440 50).width,
     (calculate_resolution (ScreenConfig.init 0) 2560 1440 50).height)
    ≠ (2560, 1440) := by
  norm_num [calculate_resolution, scale_factor, pyRound, ScreenConfig.init, Int.even_iff]

/-- C3 (amended): with reference 2560x1440 and scale 50 (factor 1.25, and
both branches scale the longer reference side 2560), ratio 16:9 yields
(3200, 1800) and ratio 9:16 yields (1800, 3200). -/
theorem C3_example_resolutions :
    ((calculate_resolution (ScreenConfig.init 0) 2560 1440 50).width,
     (calculate_resolution (ScreenConfig.init 0) 2560 1440 50).height) = (3200, 1800) ∧
    ((calculate_resolution { ScreenConfig.init 0 with ratio_w := 9, ratio_h := 16 }
        2560 1440 50).width,
     (calculate_resolution { ScreenConfig.init 0 with ratio_w := 9, ratio_h := 16 }
        2560 1440 50).height) = (1800, 3200) := by
  constructor <;>
    norm_num [calculate_resolution, scale_factor, pyRound, ScreenConfig.init, Int.even_iff]

/-- C9 counterexample: for a screen at `x = -1` with scale factor `1/2`,
the code computes `x1 = int(-0.5) = 0` (truncation toward zero), while the
claimed floor projection gives `-1`. -/
theorem C9_counterexample :
    rect_coords ⟨0, 16, 9, -1, 0, 2, 2, "#CC9709"⟩ (1/2) 0 0
    ≠ rect_coords_claimed ⟨0, 16, 9, -1, 0, 2, 2, "#CC9709"⟩ (1/2) 0 0 := by
  have h1 : rect_coords ⟨0, 16, 9, -1, 0, 2, 2, "#CC9709"⟩ (1/2) 0 0 = (0, 0, 0, 1) := by
    norm_num [rect_coords, pyInt]
  have h2 : rect_coords_claimed ⟨0, 16, 9, -1, 0, 2, 2, "#CC9709"⟩ (1/2) 0 0
      = (-1, 0, 0, 1) := by
    norm_num [rect_coords_claimed]
  rw [h1, h2]
  decide

/-- C9 (amended): the preview projection returns
`x1 = trunc(screen.x * scale_factor) + x_offset` (truncation toward zero),
and similarly for y1, x2, y2; whenever all four scaled products are
nonnegative this coincides with the claimed floor projection. -/
theorem C9_projection_amended (s : ScreenConfig) (sf : ℚ) (x_offset y_offset : ℤ) :
    rect_coords s sf x_offset y_offset = rect_coords_amended s sf x_offset y_offset ∧
    (0 ≤ (s.x : ℚ) * sf → 0 ≤ (s.y : ℚ) * sf →
     0 ≤ ((s.x + s.width : ℤ) : ℚ) * sf → 0 ≤ ((s.y + s.height : ℤ) : ℚ) * sf →
     rect_coords s sf x_offset y_offset = rect_coords_claimed s sf x_offset y_offset) := by
  refine ⟨rfl, fun h1 h2 h3 h4 => ?_⟩
  unfold rect_coords rect_coords_claimed
  rw [pyInt_eq_floor h1, pyInt_eq_floor h2, pyInt_eq_floor h3, pyInt_eq_floor h4]

/-- Witness for C9 at the default screen, scale factor 1/2, offsets (3, 4). -/
theorem C9_witness :
    rect_coords (ScreenConfig.init 0) (1/2) 3 4
      = rect_coords_claimed (ScreenConfig.init 0) (1/2) 3 4 :=
  (C9_projection_amended (ScreenConfig.init 0) (1/2) 3 4).2
    (by norm_num [ScreenConfig.init]) (by norm_num [ScreenConfig.init])
    (by norm_num [ScreenConfig.init]) (by norm_num [ScreenConfig.init])

/-- C7: rejected edits (a non-integer field, i.e. a `none`, or a non-positive
ratio / reference dimension) mutate nothing, and accepted edits update all
the fields of the edit atomically. -/
theorem C7_edit_atomicity :
    (∀ (sc : ScreenConfig) (i1 i2 i3 i4 : Option ℤ),
      (i1 = none ∨ i2 = none ∨ i3 = none ∨ i4 = none ∨
       (∃ rw, i1 = some rw ∧ rw ≤ 0) ∨ (∃ rh, i2 = some rh ∧ rh ≤ 0)) →
      update_config sc i1 i2 i3 i4 = sc) ∧
    (∀ (sc : ScreenConfig) (rw rh x y : ℤ), 0 < rw → 0 < rh →
      update_config sc (some rw) (some rh) (some x) (some y)
        = { sc with ratio_w := rw, ratio_h := rh, x := x, y := y }) ∧
    (∀ (g : GlobalConfig) (i1 i2 : Option ℤ),
      (i1 = none ∨ i2 = none ∨
       (∃ w, i1 = some w ∧ w ≤ 0) ∨ (∃ h, i2 = some h ∧ h ≤ 0)) →
      apply_reference g i1 i2 = g) ∧
    (∀ (g : GlobalConfig) (w h : ℤ), 0 < w → 0 < h →
      apply_reference g (some w) (some h)
        = { g with ref_width := w, ref_height := h }) := by
  refine ⟨?_, ?_, ?_, ?_⟩
  · intro sc i1 i2 i3 i4 h
    cases i1 <;> cases i2 <;> cases i3 <;> cases i4 <;> simp_all [update_config]
  · intro sc rw rh x y hrw hrh
    have : ¬ (rw ≤ 0 ∨ rh ≤ 0) := by omega
    simp [update_config, this]
  · intro g i1 i2 h
    cases i1 <;> cases i2 <;> simp_all [apply_reference]
  · intro g w h hw hh
    have : ¬ (w ≤ 0 ∨ h ≤ 0) := by omega
    simp [apply_reference, this]

/-- Witness for C7: one rejected edit (ratio 0) and one accepted edit. -/
theorem C7_witness :
    update_config (ScreenConfig.init 0) (some 0) (some 9) (some 5) (some 5)
      = ScreenConfig.init 0 ∧
    update_config (ScreenConfig.init 0) (some 21) (some 9) (some 5) (some 6)
      = { ScreenConfig.init 0 with ratio_w := 21, ratio_h := 9, x := 5, y := 6 } ∧
    apply_reference ⟨2560, 1440, 50⟩ (some 0) (some 1080) = ⟨2560, 1440, 50⟩ ∧
    apply_reference ⟨2560, 1440, 50⟩ (some 1920) (some 1080) = ⟨1920, 1080, 50⟩ :=
  ⟨C7_edit_atomicity.1 (ScreenConfig.init 0) (some 0) (some 9) (some 5) (some 5)
     (Or.inr (Or.inr (Or.inr (Or.inr (Or.inl ⟨0, rfl, le_refl 0⟩))))),
   C7_edit_atomicity.2.1 (ScreenConfig.init 0) 21 9 5 6 (by decide) (by decide),
   C7_edit_atomicity.2.2.1 ⟨2560, 1440, 50⟩ (some 0) (some 1080)
     (Or.inr (Or.inr (Or.inl ⟨0, rfl, le_refl 0⟩))),
   C7_edit_atomicity.2.2.2 ⟨2560, 1440, 50⟩ 1920 1080 (by decide) (by decide)⟩

lemma calculate_resolution_set_id_color (sc : ScreenConfig) (j : ℕ) (c : String)
    (ref_width ref_height scale_percent : ℤ) :
    calculate_resolution { sc with id := j, color := c } ref_width ref_height scale_percent
    = { calculate_resolution sc ref_width ref_height scale_percent with
        id := j, color := c } := by
  by_cases h : sc.ratio_h ≤ sc.ratio_w <;> simp [calculate_resolution, h]

/-- C6: deleting the screen at index `i` removes exactly that entry
(`List.eraseIdx`), keeps the remaining entries in order with all their other
fields unchanged, and reassigns each remaining entry's id to its new position
together with the id-derived color; in particular `screens[j].id = j`
afterwards.  The hypothesis states that the input widths/heights are
consistent with the current global configuration, which is an invariant of
the application (every mutation triggers `recalculate_all_resolutions`). -/
theorem C6_delete_screen_compacts (screens : List ScreenConfig) (i : ℕ)
    (ref_width ref_height scale_percent : ℤ) (hi : i < screens.length)
    (hcons : ∀ sc ∈ screens, calculate_resolution sc ref_width ref_height scale_percent = sc) :
    (delete_screen screens i ref_width ref_height scale_percent).length
      = screens.length - 1 ∧
    (∀ j : ℕ, (delete_screen screens i ref_width ref_height scale_percent)[j]?
        = ((screens.eraseIdx i)[j]?).map
            (fun sc => { sc with id := j, color := generate_color j })) ∧
    (∀ (j : ℕ) (h : j < (delete_screen screens i ref_width ref_height scale_percent).length),
      ((delete_screen screens i ref_width ref_height scale_percent).get ⟨j, h⟩).id = j) := by
  have hget : ∀ j : ℕ, (delete_screen screens i ref_width ref_height scale_percent)[j]?
      = ((screens.eraseIdx i)[j]?).map
          (fun sc => { sc with id := j, color := generate_color j }) := by
    intro j
    unfold delete_screen recalculate_all
    simp only [List.getElem?_map, List.getElem?_enum]
    cases h : (screens.eraseIdx i)[j]? with
    | none => simp
    | some sc =>
      have hmem : sc ∈ screens := by
        obtain ⟨hlt, hs⟩ := List.getElem?_eq_some_iff.1 h
        exact List.eraseIdx_subset _ _ (hs ▸ List.getElem_mem hlt)
      simp only [Option.map_some']
      rw [calculate_resolution_set_id_color, hcons sc hmem]
  refine ⟨?_, hget, ?_⟩
  · unfold delete_screen recalculate_all
    simp [List.length_eraseIdx, hi]
  · intro j h
    have h1 := hget j
    rw [List.getElem?_eq_getElem h] at h1
    cases h2 : (screens.eraseIdx i)[j]? with
    | none => rw [h2] at h1; simp at h1
    | some sc =>
      rw [h2] at h1
      simp only [Option.map_some', Option.some_inj, List.get_eq_getElem] at h1 ⊢
      rw [h1]

/-- Witness for C6: deleting index 0 from a consistent two-screen list. -/
theorem C6_witness :
    (delete_screen
      [⟨0, 16, 9, 0, 0, 3200, 1800, "#CC9709"⟩, ⟨1, 16, 9, 0, 0, 3200, 1800, "#C74405"⟩]
      0 2560 1440 50).length = 1 ∧
    (∀ j : ℕ, (delete_screen
      [⟨0, 16, 9, 0, 0, 3200, 1800, "#CC9709"⟩, ⟨1, 16, 9, 0, 0, 3200, 1800, "#C74405"⟩]
      0 2560 1440 50)[j]?
        = (([⟨0, 16, 9, 0, 0, 3200, 1800, "#CC9709"⟩,
             (⟨1, 16, 9, 0, 0, 3200, 1800, "#C74405"⟩ : ScreenConfig)].eraseIdx 0)[j]?).map
            (fun sc => { sc with id := j, color := generate_color j })) ∧
    (∀ (j : ℕ) (h : j < (delete_screen
      [⟨0, 16, 9, 0, 0, 3200, 1800, "#CC9709"⟩, ⟨1, 16, 9, 0, 0, 3200, 1800, "#C74405"⟩]
      0 2560 1440 50).length),
      ((delete_screen
        [⟨0, 16, 9, 0, 0, 3200, 1800, "#CC9709"⟩, ⟨1, 16, 9, 0, 0, 3200, 1800, "#C74405"⟩]
        0 2560 1440 50).get ⟨j, h⟩).id = j) := by
  have h := C6_delete_screen_compacts
    [⟨0, 16, 9, 0, 0, 3200, 1800, "#CC9709"⟩, ⟨1, 16, 9, 0, 0, 3200, 1800, "#C74405"⟩]
    0 2560 1440 50 (by decide) ?hcons
  case hcons =>
    intro sc hsc
    rcases List.mem_cons.1 hsc with rfl | hsc'
    · norm_num [calculate_resolution, scale_factor, pyRound, Int.even_iff]
    · rcases List.mem_singleton.1 hsc' with rfl
      norm_num [calculate_resolution, scale_factor, pyRound, Int.even_iff]
  exact ⟨h.1.trans (by decide), h.2.1, h.2.2⟩

lemma toDigitsCore_append (b : ℕ) :
    ∀ (f n : ℕ) (ds : List Char),
      Nat.toDigitsCore b f n ds = Nat.toDigitsCore b f n [] ++ ds := by
  intro f
  induction f with
  | zero => intro n ds; simp [Nat.toDigitsCore]
  | succ f ih =>
    intro n ds
    simp only [Nat.toDigitsCore]
    by_cases h : n / b = 0
    · simp [h]
    · simp only [if_neg h]
      rw [ih (n / b) (Nat.digitChar (n % b) :: ds), ih (n / b) [Nat.digitChar (n % b)]]
      simp

lemma toDigitsCore_fuel (b : ℕ) (hb : 2 ≤ b) :
    ∀ (n f₁ f₂ : ℕ), n < f₁ → n < f₂ →
      Nat.toDigitsCore b f₁ n [] = Nat.toDigitsCore b f₂ n [] := by
  intro n
  induction n using Nat.strong_induction_on with
  | _ n ih =>
    intro f₁ f₂ h₁ h₂
    cases f₁ with
    | zero => omega
    | succ g₁ =>
      cases f₂ with
      | zero => omega
      | succ g₂ =>
        simp only [Nat.toDigitsCore]
        by_cases h : n / b = 0
        · simp [h]
        · simp only [if_neg h]
          have hn : 0 < n := by
            rcases Nat.eq_zero_or_pos n with rfl | hpos
            · simp at h
            · exact hpos
          have hdiv : n / b < n := Nat.div_lt_self hn (by omega)
          rw [toDigitsCore_append b g₁, toDigitsCore_append b g₂,
            ih (n / b) hdiv g₁ g₂ (by omega) (by omega)]

lemma toDigits_lt (n : ℕ) (h : n < 10) : Nat.toDigits 10 n = [Nat.digitChar n] := by
  unfold Nat.toDigits
  simp only [Nat.toDigitsCore]
  simp [Nat.div_eq_of_lt h, Nat.mod_eq_of_lt h]

lemma toDigits_ge (n : ℕ) (h : 10 ≤ n) :
    Nat.toDigits 10 n = Nat.toDigits 10 (n / 10) ++ [Nat.digitChar (n % 10)] := by
  have h0 : n / 10 ≠ 0 := by omega
  have hdiv : n / 10 < n := Nat.div_lt_self (by omega) (by omega)
  have step : Nat.toDigitsCore 10 (n + 1) n []
      = Nat.toDigitsCore 10 n (n / 10) [Nat.digitChar (n % 10)] := by
    simp only [Nat.toDigitsCore, if_neg h0]
  unfold Nat.toDigits
  rw [step, toDigitsCore_append 10 n (n / 10),
    toDigitsCore_fuel 10 (by omega) (n / 10) n (n / 10 + 1) hdiv (Nat.lt_succ_self _)]

lemma digitVal_digitChar (m : ℕ) (h : m < 10) : digitVal (Nat.digitChar m) = m := by
  interval_cases m <;> decide

lemma decVal_append (l : List Char) (c : Char) :
    decVal (l ++ [c]) = decVal l * 10 + digitVal c := by
  simp [decVal, List.foldl_append]

lemma decVal_toDigits (n : ℕ) : decVal (Nat.toDigits 10 n) = n := by
  induction n using Nat.strong_induction_on with
  | _ n ih =>
    by_cases h : n < 10
    · rw [toDigits_lt n h]
      simp [decVal, digitVal_digitChar n h]
    · push_neg at h
      have hdiv : n / 10 < n := Nat.div_lt_self (by omega) (by omega)
      rw [toDigits_ge n h, decVal_append, ih (n / 10) hdiv,
        digitVal_digitChar (n % 10) (Nat.mod_lt n (by omega))]
      omega

lemma Nat_repr_data (n : ℕ) : (Nat.repr n).data = Nat.toDigits 10 n := rfl

lemma Nat_repr_injective : Function.Injective Nat.repr := by
  intro m n h
  have hd : Nat.toDigits 10 m = Nat.toDigits 10 n := by
    rw [← Nat_repr_data, ← Nat_repr_data, h]
  have := decVal_toDigits m
  rw [hd, decVal_toDigits n] at this
  exact this.symm

lemma digitChar_clean (m : ℕ) (h : m < 10) :
    Nat.digitChar m ≠ '.' ∧ Nat.digitChar m ≠ '/' := by
  interval_cases m <;> exact ⟨by decide, by decide⟩

lemma toDigits_clean (n : ℕ) : clean_chars (Nat.toDigits 10 n) := by
  induction n using Nat.strong_induction_on with
  | _ n ih =>
    by_cases h : n < 10
    · rw [toDigits_lt n h]
      intro c hc
      rcases List.mem_singleton.1 hc with rfl
      exact digitChar_clean n h
    · push_neg at h
      have hdiv : n / 10 < n := Nat.div_lt_self (by omega) (by omega)
      rw [toDigits_ge n h]
      intro c hc
      rcases List.mem_append.1 hc with h1 | h2
      · exact ih (n / 10) hdiv c h1
      · rcases List.mem_singleton.1 h2 with rfl
        exact digitChar_clean (n % 10) (Nat.mod_lt n (by omega))

lemma toDigits_concat (n : ℕ) :
    ∃ l, Nat.toDigits 10 n = l ++ [Nat.digitChar (n % 10)] := by
  by_cases h : n < 10
  · exact ⟨[], by simp [toDigits_lt n h, Nat.mod_eq_of_lt h]⟩
  · push_neg at h
    exact ⟨_, toDigits_ge n h⟩

lemma Int_repr_clean (i : ℤ) : clean_chars (Int.repr i).data := by
  cases i with
  | ofNat m =>
    intro c hc
    exact toDigits_clean m c hc
  | negSucc m =>
    intro c hc
    have hd : (Int.repr (Int.negSucc m)).data = '-' :: (Nat.repr (m + 1)).data := rfl
    rw [hd] at hc
    rcases List.mem_cons.1 hc with rfl | h2
    · exact ⟨by decide, by decide⟩
    · exact toDigits_clean (m + 1) c h2

lemma Int_repr_concat (i : ℤ) :
    ∃ l d, (Int.repr i).data = l ++ [d] ∧ d ≠ '.' ∧ d ≠ '/' := by
  cases i with
  | ofNat m =>
    obtain ⟨l, hl⟩ := toDigits_concat m
    exact ⟨l, Nat.digitChar (m % 10), hl, digitChar_clean (m % 10) (by omega)⟩
  | negSucc m =>
    obtain ⟨l, hl⟩ := toDigits_concat (m + 1)
    refine ⟨'-' :: l, Nat.digitChar ((m + 1) % 10), ?_,
      digitChar_clean ((m + 1) % 10) (by omega)⟩
    have hd : (Int.repr (Int.negSucc m)).data = '-' :: (Nat.repr (m + 1)).data := rfl
    rw [hd, Nat_repr_data, hl]
    rfl

lemma mkCand_inj (name ext : String) {j k : ℕ}
    (h : mkCand name ext j = mkCand name ext k) : j = k := by
  have hd := congrArg String.data h
  simp only [mkCand, String.data_append] at hd
  have h1 := List.append_cancel_right hd
  have h3 := List.append_cancel_left h1
  have h4 : Nat.toDigits 10 j = Nat.toDigits 10 k := by
    rw [← Nat_repr_data, ← Nat_repr_data, h3]
  have := decVal_toDigits j
  rw [h4, decVal_toDigits k] at this
  exact this.symm

lemma exists_free_lt (existing : List String) (name ext : String) (c : ℕ) :
    ∃ j, j < existing.length + 1 ∧ mkCand name ext (c + j) ∉ existing := by
  by_contra hall
  push_neg at hall
  have hsub : (Finset.range (existing.length + 1)).image
      (fun j => mkCand name ext (c + j)) ⊆ existing.toFinset := by
    intro x hx
    simp only [Finset.mem_image, Finset.mem_range] at hx
    obtain ⟨j, hj, rfl⟩ := hx
    exact List.mem_toFinset.2 (hall j hj)
  have hinj : Function.Injective (fun j : ℕ => mkCand name ext (c + j)) := by
    intro a b hab
    have := mkCand_inj name ext hab
    omega
  have hcard := Finset.card_le_card hsub
  rw [Finset.card_image_of_injective _ hinj, Finset.card_range] at hcard
  have := List.toFinset_card_le existing
  omega

lemma find_unique_first (existing : List String) (name ext : String) :
    ∀ (fuel counter : ℕ),
      (∃ j, j < fuel ∧ mkCand name ext (counter + j) ∉ existing) →
      ∃ j, j < fuel ∧ find_unique existing name ext fuel counter
          = mkCand name ext (counter + j)
        ∧ mkCand name ext (counter + j) ∉ existing
        ∧ ∀ i, i < j → mkCand name ext (counter + i) ∈ existing := by
  intro fuel
  induction fuel with
  | zero =>
    intro counter h
    obtain ⟨j, hj, _⟩ := h
    omega
  | succ fuel ih =>
    intro counter h
    by_cases hc : mkCand name ext counter ∈ existing
    · obtain ⟨j, hj, hfree⟩ := h
      have hj0 : j ≠ 0 := by
        intro h0
        rw [h0, Nat.add_zero] at hfree
        exact hfree hc
      have hshift : ∃ j, j < fuel ∧ mkCand name ext (counter + 1 + j) ∉ existing := by
        refine ⟨j - 1, by omega, ?_⟩
        have : counter + 1 + (j - 1) = counter + j := by omega
        rw [this]
        exact hfree
      obtain ⟨j', hj', heq, hfree', hmin⟩ := ih (counter + 1) hshift
      refine ⟨j' + 1, by omega, ?_, ?_, ?_⟩
      · have hstep : find_unique existing name ext (fuel + 1) counter
            = find_unique existing name ext fuel (counter + 1) := by
          simp only [find_unique, if_pos hc]
        rw [hstep, heq]
        congr 1
        omega
      · have : counter + (j' + 1) = counter + 1 + j' := by omega
        rw [this]
        exact hfree'
      · intro i hi
        cases i with
        | zero => simpa using hc
        | succ i =>
          have : counter + (i + 1) = counter + 1 + i := by omega
          rw [this]
          exact hmin i (by omega)
    · refine ⟨0, by omega, ?_, by simpa using hc, by omega⟩
      simp only [find_unique, if_neg hc, Nat.add_zero]

lemma guf_not_mem (existing : List String) (base_path : String) :
    get_unique_filename existing base_path ∉ existing := by
  unfold get_unique_filename
  by_cases h : base_path ∈ existing
  · simp only [if_pos h]
    obtain ⟨j, hj, heq, hfree, hmin⟩ :=
      find_unique_first existing (splitext base_path).1 (splitext base_path).2
        (existing.length + 1) 2
        (exists_free_lt existing (splitext base_path).1 (splitext base_path).2 2)
    rw [heq]
    exact hfree
  · simp only [if_neg h]
    exact h

lemma guf_of_not_mem (existing : List String) (base_path : String)
    (h : base_path ∉ existing) : get_unique_filename existing base_path = base_path := by
  unfold get_unique_filename
  simp only [if_neg h]

lemma guf_of_mem (existing : List String) (base_path : String)
    (h : base_path ∈ existing) :
    ∃ k, 2 ≤ k ∧
      get_unique_filename existing base_path
        = mkCand (splitext base_path).1 (splitext base_path).2 k ∧
      mkCand (splitext base_path).1 (splitext base_path).2 k ∉ existing ∧
      ∀ j, 2 ≤ j → j < k →
        mkCand (splitext base_path).1 (splitext base_path).2 j ∈ existing := by
  obtain ⟨j, hj, heq, hfree, hmin⟩ :=
    find_unique_first existing (splitext base_path).1 (splitext base_path).2
      (existing.length + 1) 2
      (exists_free_lt existing (splitext base_path).1 (splitext base_path).2 2)
  refine ⟨2 + j, by omega, ?_, hfree, ?_⟩
  · unfold get_unique_filename
    simp only [if_pos h]
    exact heq
  · intro i h2 hik
    have : 2 + (i - 2) = i := by omega
    rw [← this]
    exact hmin (i - 2) (by omega)

lemma findDot_cons (c : Char) (rest : List Char) (h1 : c ≠ '/') (h2 : c ≠ '.') :
    findDot (c :: rest) = (findDot rest).map (· + 1) := by
  simp [findDot, h1, h2]

lemma findDot_dot (rest : List Char) :
    findDot ('.' :: rest) = if hasStem rest then some 1 else none := by
  simp [findDot]

lemma findDot_clean_append (l rest : List Char) (h : clean_chars l) :
    findDot (l ++ rest) = (findDot rest).map (· + l.length) := by
  induction l with
  | nil =>
    cases h0 : findDot rest <;> simp [h0]
  | cons c l' ih =>
    have hc := h c (List.mem_cons_self c l')
    have hl' : clean_chars l' := fun x hx => h x (List.mem_cons_of_mem _ hx)
    rw [List.cons_append, findDot_cons c (l' ++ rest) hc.2 hc.1, ih hl']
    cases h0 : findDot rest with
    | none => simp
    | some k => simp; omega

lemma hasStem_of_concat {ldata : List Char}
    (h : ∃ l d, ldata = l ++ [d] ∧ d ≠ '.' ∧ d ≠ '/') :
    hasStem ldata.reverse = true := by
  obtain ⟨l, d, rfl, h1, h2⟩ := h
  rw [List.reverse_append]
  simp [hasStem, h1, h2]

lemma splitext_with_ext (p s : String) (t : List Char)
    (hdata : p.data = s.data ++ '.' :: t) (ht : clean_chars t)
    (hs : hasStem s.data.reverse = true) :
    splitext p = (s, ⟨'.' :: t⟩) := by
  have hclean : clean_chars t.reverse := fun c hc => ht c (List.mem_reverse.1 hc)
  have hfd : findDot p.data.reverse = some (t.length + 1) := by
    rw [hdata, List.reverse_append]
    have h2 : ('.' :: t).reverse = t.reverse ++ ['.'] := by simp
    rw [h2, List.append_assoc, findDot_clean_append _ _ hclean, List.singleton_append,
      findDot_dot, if_pos hs]
    simp [Nat.add_comm]
  unfold splitext
  rw [hfd]
  have hlen : p.data.length - (t.length + 1) = s.data.length := by
    rw [hdata]
    simp
  have htake : p.data.take (p.data.length - (t.length + 1)) = s.data := by
    rw [hlen, hdata, List.take_left]
  have hdrop : p.data.drop (p.data.length - (t.length + 1)) = '.' :: t := by
    rw [hlen, hdata, List.drop_left]
  show ((⟨p.data.take (p.data.length - (t.length + 1))⟩ : String),
        (⟨p.data.drop (p.data.length - (t.length + 1))⟩ : String)) = (s, ⟨'.' :: t⟩)
  rw [htake, hdrop]

lemma splitext_no_ext (p : String) (pre fname : List Char)
    (hdata : p.data = pre ++ fname) (hf : clean_chars fname)
    (hp : pre = [] ∨ ∃ pre', pre = pre' ++ ['/']) :
    splitext p = (p, "") := by
  have hclean : clean_chars fname.reverse := fun c hc => hf c (List.mem_reverse.1 hc)
  have hfd : findDot p.data.reverse = none := by
    rw [hdata, List.reverse_append, findDot_clean_append _ _ hclean]
    rcases hp with rfl | ⟨pre', rfl⟩
    · simp [findDot]
    · rw [List.reverse_append]
      simp [findDot]
  unfold splitext
  rw [hfd]

lemma screen_filename_eq (sc : ScreenConfig) (ext : String) :
    screen_filename sc ext = screen_stem sc ++ ext := by
  simp [screen_filename, screen_stem, String.append_assoc]

lemma path_join_append (dir a b : String) :
    path_join dir (a ++ b) = path_join dir a ++ b := by
  unfold path_join
  by_cases h1 : dir = ""
  · simp [h1]
  · by_cases h2 : dir.data.getLast? = some '/' <;> simp [h1, h2, String.append_assoc]

lemma path_join_data (dir f : String) :
    (path_join dir f).data = f.data ∨
    ∃ pre, (path_join dir f).data = (pre ++ ['/']) ++ f.data := by
  unfold path_join
  by_cases h1 : dir = ""
  · left; simp [h1]
  · by_cases h2 : dir.data.getLast? = some '/'
    · right
      obtain ⟨ys, hys⟩ := List.getLast?_eq_some_iff.1 h2
      exact ⟨ys, by simp [h1, h2, String.data_append, hys]⟩
    · right
      refine ⟨dir.data, ?_⟩
      simp [h1, h2, String.data_append]

lemma screen_stem_clean (sc : ScreenConfig) : clean_chars (screen_stem sc).data := by
  intro c hc
  simp only [screen_stem, String.data_append] at hc
  have hw : clean_chars "wallpaper_screen_".data := by unfold clean_chars; decide
  have hm : clean_chars "-".data := by unfold clean_chars; decide
  rcases List.mem_append.1 hc with hc1 | hc2
  · rcases List.mem_append.1 hc1 with hc3 | hc4
    · rcases List.mem_append.1 hc3 with hc5 | hc6
      · exact hw c hc5
      · exact Int_repr_clean sc.ratio_w c hc6
    · exact hm c hc4
  · exact Int_repr_clean sc.ratio_h c hc2

lemma screen_stem_concat (sc : ScreenConfig) :
    ∃ l d, (screen_stem sc).data = l ++ [d] ∧ d ≠ '.' ∧ d ≠ '/' := by
  obtain ⟨l, d, hl, h1, h2⟩ := Int_repr_concat sc.ratio_h
  refine ⟨("wallpaper_screen_".data ++ (Int.repr sc.ratio_w).data ++ "-".data) ++ l, d,
    ?_, h1, h2⟩
  simp [screen_stem, String.data_append, hl]

lemma base_concat (folder : String) (sc : ScreenConfig) :
    ∃ l d, (path_join folder (screen_stem sc)).data = l ++ [d] ∧ d ≠ '.' ∧ d ≠ '/' := by
  obtain ⟨l, d, hl, h1, h2⟩ := screen_stem_concat sc
  rcases path_join_data folder (screen_stem sc) with hcase | ⟨pre, hcase⟩
  · exact ⟨l, d, by rw [hcase, hl], h1, h2⟩
  · refine ⟨(pre ++ ['/']) ++ l, d, ?_, h1, h2⟩
    rw [hcase, hl, ← List.append_assoc]

lemma splitext_base (folder : String) (sc : ScreenConfig) (ext : String) (he : ext_ok ext) :
    splitext (path_join folder (screen_filename sc ext))
      = (path_join folder (screen_stem sc), ext) := by
  have hsplit : path_join folder (screen_filename sc ext)
      = path_join folder (screen_stem sc) ++ ext := by
    rw [screen_filename_eq, path_join_append]
  rcases he with rfl | ⟨t, ht, hclean⟩
  · rw [hsplit, String.append_empty]
    rcases path_join_data folder (screen_stem sc) with hcase | ⟨pre, hcase⟩
    · exact splitext_no_ext _ [] _ (by simpa using hcase) (screen_stem_clean sc)
        (Or.inl rfl)
    · exact splitext_no_ext _ (pre ++ ['/']) _ hcase (screen_stem_clean sc)
        (Or.inr ⟨pre, rfl⟩)
  · rw [hsplit]
    have hdata : (path_join folder (screen_stem sc) ++ ext).data
        = (path_join folder (screen_stem sc)).data ++ '.' :: t := by
      rw [String.data_append, ht]
    have hstem := hasStem_of_concat (base_concat folder sc)
    rw [splitext_with_ext _ _ t hdata hclean hstem]
    have hext : (⟨'.' :: t⟩ : String) = ext := String.ext (by rw [ht])
    rw [hext]

lemma extract_step_oob (folder ext : String) (st : AppState) (rep : Report)
    (s : ScreenConfig)
    (h : s.x < 0 ∨ s.y < 0 ∨ st.image.width < s.x + s.width ∨
      st.image.height < s.y + s.height) :
    extract_step folder ext (st, rep) s
      = (st, { rep with errors := rep.errors ++ [errMsg s] }) := by
  unfold extract_step
  simp [h]

lemma extract_step_save (folder ext : String) (st : AppState) (rep : Report)
    (s : ScreenConfig)
    (h : ¬ (s.x < 0 ∨ s.y < 0 ∨ st.image.width < s.x + s.width ∨
      st.image.height < s.y + s.height)) :
    extract_step folder ext (st, rep) s
      = ({ st with fs := get_unique_filename st.fs (path_join folder (screen_filename s ext)) :: st.fs },
         { rep with
           extracted_count := rep.extracted_count + 1,
           saved := rep.saved ++
             [(get_unique_filename st.fs (path_join folder (screen_filename s ext)),
               pil_crop st.image (get_box s))] }) := by
  unfold extract_step
  simp [h]

lemma in_bounds_false (st : AppState) (s : ScreenConfig)
    (h : s.x < 0 ∨ s.y < 0 ∨ st.image.width < s.x + s.width ∨
      st.image.height < s.y + s.height) :
    in_bounds st.image s = false := by
  simp only [in_bounds, decide_eq_false_iff_not]
  omega

lemma in_bounds_true (st : AppState) (s : ScreenConfig)
    (h : ¬ (s.x < 0 ∨ s.y < 0 ∨ st.image.width < s.x + s.width ∨
      st.image.height < s.y + s.height)) :
    in_bounds st.image s = true := by
  simp only [in_bounds, decide_eq_true_eq]
  omega

lemma extract_foldl_report (folder ext : String) :
    ∀ (screens : List ScreenConfig) (st : AppState) (rep : Report),
      ((screens.foldl (extract_step folder ext) (st, rep)).2.extracted_count
        = rep.extracted_count
          + (screens.filter (fun sc => in_bounds st.image sc)).length) ∧
      ((screens.foldl (extract_step folder ext) (st, rep)).2.errors
        = rep.errors
          ++ (screens.filter (fun sc => ! in_bounds st.image sc)).map errMsg) ∧
      ((screens.foldl (extract_step folder ext) (st, rep)).2.saved.map Prod.snd
        = rep.saved.map Prod.snd
          ++ (screens.filter (fun sc => in_bounds st.image sc)).map
              (fun sc => pil_crop st.image (get_box sc))) := by
  intro screens
  induction screens with
  | nil => intro st rep; simp
  | cons s ss ih =>
    intro st rep
    rw [List.foldl_cons]
    by_cases h : s.x < 0 ∨ s.y < 0 ∨ st.image.width < s.x + s.width ∨
        st.image.height < s.y + s.height
    · rw [extract_step_oob folder ext st rep s h]
      obtain ⟨ih1, ih2, ih3⟩ := ih st { rep with errors := rep.errors ++ [errMsg s] }
      have hb := in_bounds_false st s h
      refine ⟨?_, ?_, ?_⟩
      · rw [ih1]; simp [List.filter_cons, hb]
      · rw [ih2]; simp [List.filter_cons, hb]
      · rw [ih3]; simp [List.filter_cons, hb]
    · rw [extract_step_save folder ext st rep s h]
      obtain ⟨ih1, ih2, ih3⟩ := ih { st with fs := get_unique_filename st.fs (path_join folder (screen_filename s ext)) :: st.fs }
        { rep with
          extracted_count := rep.extracted_count + 1,
          saved := rep.saved ++
            [(get_unique_filename st.fs (path_join folder (screen_filename s ext)),
              pil_crop st.image (get_box s))] }
      have hb := in_bounds_true st s h
      refine ⟨?_, ?_, ?_⟩
      · rw [ih1]; simp [List.filter_cons, hb]; omega
      · rw [ih2]; simp [List.filter_cons, hb]
      · rw [ih3]; simp [List.filter_cons, hb]

lemma extract_step_frame (folder ext : String) (acc : AppState × Report)
    (s : ScreenConfig) :
    (extract_step folder ext acc s).1.image = acc.1.image ∧
    (extract_step folder ext acc s).1.screens = acc.1.screens := by
  unfold extract_step
  by_cases h : s.x < 0 ∨ s.y < 0 ∨ acc.1.image.width < s.x + s.width ∨
      acc.1.image.height < s.y + s.height
  · simp [h]
  · simp [h]

lemma extract_foldl_frame (folder ext : String) :
    ∀ (screens : List ScreenConfig) (acc : AppState × Report),
      (screens.foldl (extract_step folder ext) acc).1.image = acc.1.image ∧
      (screens.foldl (extract_step folder ext) acc).1.screens = acc.1.screens := by
  intro screens
  induction screens with
  | nil => intro acc; exact ⟨rfl, rfl⟩
  | cons s ss ih =>
    intro acc
    rw [List.foldl_cons]
    obtain ⟨h1, h2⟩ := ih (extract_step folder ext acc s)
    obtain ⟨h3, h4⟩ := extract_step_frame folder ext acc s
    exact ⟨h1.trans h3, h2.trans h4⟩

lemma extract_foldl_naming (folder ext : String) (he : ext_ok ext) :
    ∀ (screens : List ScreenConfig) (st : AppState) (rep : Report),
      ∃ news,
        (screens.foldl (extract_step folder ext) (st, rep)).2.saved
          = rep.saved ++ news ∧
        ExportNaming st.image.width st.image.height folder ext st.fs screens news ∧
        ∀ pr ∈ news, pr.1 ∉ st.fs := by
  intro screens
  induction screens with
  | nil =>
    intro st rep
    exact ⟨[], by simp, ExportNaming.nil _, by simp⟩
  | cons s ss ih =>
    intro st rep
    rw [List.foldl_cons]
    by_cases h : s.x < 0 ∨ s.y < 0 ∨ st.image.width < s.x + s.width ∨
        st.image.height < s.y + s.height
    · rw [extract_step_oob folder ext st rep s h]
      obtain ⟨news, h1, h2, h3⟩ := ih st { rep with errors := rep.errors ++ [errMsg s] }
      exact ⟨news, by simpa using h1, ExportNaming.oob _ _ _ _ h h2, h3⟩
    · rw [extract_step_save folder ext st rep s h]
      obtain ⟨news, h1, h2, h3⟩ :=
        ih { st with fs := get_unique_filename st.fs (path_join folder (screen_filename s ext)) :: st.fs }
          { rep with
            extracted_count := rep.extracted_count + 1,
            saved := rep.saved ++
              [(get_unique_filename st.fs (path_join folder (screen_filename s ext)),
                pil_crop st.image (get_box s))] }
      refine ⟨(get_unique_filename st.fs (path_join folder (screen_filename s ext)),
          pil_crop st.image (get_box s)) :: news, ?_, ?_, ?_⟩
      · rw [h1]
        simp
      · refine ExportNaming.save _ _ _ _ _ _ h ?_ h2
        by_cases hb : path_join folder (screen_filename s ext) ∈ st.fs
        · right
          obtain ⟨k, hk2, heq, hfree, hmin⟩ := guf_of_mem st.fs _ hb
          have hs1 : (splitext (path_join folder (screen_filename s ext))).1
              = path_join folder (screen_stem s) := by
            rw [splitext_base folder s ext he]
          have hs2 : (splitext (path_join folder (screen_filename s ext))).2 = ext := by
            rw [splitext_base folder s ext he]
          rw [hs1, hs2] at heq hfree hmin
          exact ⟨hb, k, hk2, heq, heq ▸ hfree, hmin⟩
        · left
          exact ⟨hb, guf_of_not_mem st.fs _ hb⟩
      · intro pr hpr
        rcases List.mem_cons.1 hpr with h0 | hpr'
        · rw [h0]
          exact guf_not_mem st.fs _
        · have h4 := h3 pr hpr'
          intro hmem
          exact h4 (List.mem_cons_of_mem _ hmem)

/-- C4: every path saved by `extract_all` follows the collision-avoiding
naming scheme: `{folder}/wallpaper_screen_{ratio_w}-{ratio_h}{ext}` when that
path does not exist at save time, otherwise the same name with the first
free `_k` suffix (`k ≥ 2`) inserted before the extension; each save adds the
path to the file system, and no saved path is a pre-existing file, so no
pre-existing file is ever overwritten. -/
theorem C4_export_naming (st : AppState) (folder ext : String) (he : ext_ok ext) :
    ExportNaming st.image.width st.image.height folder ext st.fs st.screens
      (extract_all st folder ext).2.saved ∧
    ∀ pr ∈ (extract_all st folder ext).2.saved, pr.1 ∉ st.fs := by
  obtain ⟨news, h1, h2, h3⟩ :=
    extract_foldl_naming folder ext he st.screens st ⟨0, [], []⟩
  unfold extract_all
  simp only [List.nil_append] at h1
  rw [h1]
  exact ⟨h2, h3⟩

/-- Witness for C4: one in-bounds default screen, an empty file system,
folder `"out"`, extension `".png"`. -/
theorem C4_witness :
    ExportNaming (⟨⟨2560, 1440, fun _ _ => 0⟩, [ScreenConfig.init 0], []⟩ : AppState).image.width
      (⟨⟨2560, 1440, fun _ _ => 0⟩, [ScreenConfig.init 0], []⟩ : AppState).image.height
      "out" ".png"
      (⟨⟨2560, 1440, fun _ _ => 0⟩, [ScreenConfig.init 0], []⟩ : AppState).fs
      (⟨⟨2560, 1440, fun _ _ => 0⟩, [ScreenConfig.init 0], []⟩ : AppState).screens
      (extract_all ⟨⟨2560, 1440, fun _ _ => 0⟩, [ScreenConfig.init 0], []⟩ "out" ".png").2.saved ∧
    ∀ pr ∈ (extract_all ⟨⟨2560, 1440, fun _ _ => 0⟩, [ScreenConfig.init 0], []⟩ "out" ".png").2.saved,
      pr.1 ∉ (⟨⟨2560, 1440, fun _ _ => 0⟩, [ScreenConfig.init 0], []⟩ : AppState).fs :=
  C4_export_naming ⟨⟨2560, 1440, fun _ _ => 0⟩, [ScreenConfig.init 0], []⟩ "out" ".png"
    (Or.inr ⟨['p', 'n', 'g'], rfl, by unfold clean_chars; decide⟩)

/-- C5: a screen is cropped and saved iff it satisfies
`x>=0 and y>=0 and x+width<=image.width and y+height<=image.height`; an
out-of-bounds screen contributes exactly its recorded error while the loop
continues, so the report carries the success count, the saved crops of
exactly the in-bounds screens in order, and the per-screen failure list. -/
theorem C5_bounds_validation (st : AppState) (folder ext : String) :
    (extract_all st folder ext).2.extracted_count
      = (st.screens.filter (fun sc => in_bounds st.image sc)).length ∧
    (extract_all st folder ext).2.errors
      = (st.screens.filter (fun sc => ! in_bounds st.image sc)).map errMsg ∧
    (extract_all st folder ext).2.saved.map Prod.snd
      = (st.screens.filter (fun sc => in_bounds st.image sc)).map
          (fun sc => pil_crop st.image (get_box sc)) := by
  obtain ⟨h1, h2, h3⟩ := extract_foldl_report folder ext st.screens st ⟨0, [], []⟩
  unfold extract_all
  exact ⟨by simpa using h1, by simpa using h2, by simpa using h3⟩

/-- C8: `extract_all` mutates neither the source image (dimensions and
pixels) nor any `ScreenConfig` in the screen list. -/
theorem C8_export_mutates_nothing (st : AppState) (folder ext : String) :
    (extract_all st folder ext).1.image = st.image ∧
    (extract_all st folder ext).1.screens = st.screens := by
  unfold extract_all
  exact extract_foldl_frame folder ext st.screens (st, ⟨0, [], []⟩)

/-- C10: `get_unique_filename` is total (the bounded search is proved to
always succeed within `len(existing) + 1` attempts); it returns `base_path`
itself when no such path exists, otherwise `{name}_{k}{ext}` for the
smallest `k ≥ 2` whose path does not exist; the result is never in the
existing set. -/
theorem C10_unique_filename_spec (existing : List String) (base_path : String) :
    get_unique_filename existing base_path ∉ existing ∧
    (base_path ∉ existing → get_unique_filename existing base_path = base_path) ∧
    (base_path ∈ existing → ∃ k, 2 ≤ k ∧
      get_unique_filename existing base_path
        = (splitext base_path).1 ++ "_" ++ Nat.repr k ++ (splitext base_path).2 ∧
      (splitext base_path).1 ++ "_" ++ Nat.repr k ++ (splitext base_path).2 ∉ existing ∧
      ∀ j, 2 ≤ j → j < k →
        (splitext base_path).1 ++ "_" ++ Nat.repr j ++ (splitext base_path).2 ∈ existing) := by
  refine ⟨guf_not_mem existing base_path, guf_of_not_mem existing base_path, fun h => ?_⟩
  obtain ⟨k, hk2, heq, hfree, hmin⟩ := guf_of_mem existing base_path h
  exact ⟨k, hk2, heq, hfree, hmin⟩

/-- Witness for C10: a fresh base path is returned unchanged; an existing
base path gets the first free suffix. -/
theorem C10_witness :
    (get_unique_filename ["a.png"] "b.png" = "b.png") ∧
    (get_unique_filename ["a.png"] "a.png" ∉ ["a.png"]) ∧
    (∃ k, 2 ≤ k ∧
      get_unique_filename ["a.png"] "a.png"
        = (splitext "a.png").1 ++ "_" ++ Nat.repr k ++ (splitext "a.png").2 ∧
      (splitext "a.png").1 ++ "_" ++ Nat.repr k ++ (splitext "a.png").2 ∉ ["a.png"] ∧
      ∀ j, 2 ≤ j → j < k →
        (splitext "a.png").1 ++ "_" ++ Nat.repr j ++ (splitext "a.png").2 ∈ ["a.png"]) :=
  ⟨(C10_unique_filename_spec ["a.png"] "b.png").2.1 (by decide),
   (C10_unique_filename_spec ["a.png"] "a.png").1,
   (C10_unique_filename_spec ["a.png"] "a.png").2.2 (by decide)⟩
